import Mathlib

/-!
Verification of the `pluralrules` CLDR plural-rule compiler.

The development shallowly embeds the program's three source files:

* `cldr_pluralrules_parser/src/parser.rs` — a nom-based recursive-descent
  parser for the CLDR plural-rule grammar.  nom parsers of type
  `&str -> IResult<&str, T>` become Lean functions
  `List Char → Option (List Char × T)`; a `none` result models a nom
  `Err::Error`.
* `make_pluralrules/src/parser/gen_rs.rs` — the decision-chain generator,
  the rule-type table builder and the little-endian subtag encoders.
  A Rust panic is modelled as `none`.
* the AST-to-predicate lowering is not among the given sources, so its
  evaluation semantics is modelled from the specification's operator table.
-/

namespace PluralRules

/-! ## AST (shape used by `parser.rs` via `super::ast`, and spec §3) -/

structure RangeAst where
  lower_val : Nat
  upper_val : Nat
  deriving Repr, DecidableEq

inductive RangeListItem where
  | range (r : RangeAst)
  | value (v : Nat)
  deriving Repr, DecidableEq

abbrev RangeList := List RangeListItem

inductive Operand where
  | N | I | V | W | F | T
  deriving Repr, DecidableEq

structure Expression where
  operand : Operand
  modulus : Option Nat
  deriving Repr, DecidableEq

inductive Operator where
  | EQ | NotEQ | Is | IsNot | In | NotIn | Within | NotWithin
  deriving Repr, DecidableEq

structure Relation where
  expression : Expression
  operator : Operator
  range_list : RangeList
  deriving Repr, DecidableEq

abbrev AndCondition := List Relation

abbrev Condition := List AndCondition

structure DecimalValue where
  integer : Nat
  decimal : Option Nat
  deriving Repr, DecidableEq

structure SampleRange where
  lower_val : DecimalValue
  upper_val : Option DecimalValue
  deriving Repr, DecidableEq

structure SampleList where
  sample_ranges : List SampleRange
  ellipsis : Bool
  deriving Repr, DecidableEq

structure Samples where
  integer : Option SampleList
  decimal : Option SampleList
  deriving Repr, DecidableEq

structure Rule where
  condition : Condition
  samples : Option Samples
  deriving Repr, DecidableEq

/-! ## nom combinator model

A parser consumes a prefix of the input and returns the remainder plus a
result; `none` is nom's recoverable `Err::Error` (all parsers in the
source only produce recoverable errors — no `cut`/`Failure` is used). -/

abbrev Inp := List Char

def P (α : Type) : Type := Inp → Option (Inp × α)

def pmap (f : α → β) (p : P α) : P β := fun i =>
  (p i).map (fun r => (r.1, f r.2))

def pseq (p : P α) (q : P β) : P (α × β) := fun i =>
  match p i with
  | none => none
  | some (i1, a) =>
    match q i1 with
    | none => none
    | some (i2, b) => some (i2, (a, b))

def palt (p q : P α) : P α := fun i =>
  match p i with
  | some r => some r
  | none => q i

def popt (p : P α) : P (Option α) := fun i =>
  match p i with
  | some (i1, a) => some (i1, some a)
  | none => some (i, none)

def ppre (p : P α) (q : P β) : P β := pmap Prod.snd (pseq p q)

/-- nom `tag`: match a literal prefix. -/
def ptag (s : List Char) : P (List Char) := fun i =>
  if s.isPrefixOf i then some (i.drop s.length, s) else none

/-- nom `digit1`: one or more ASCII digits. -/
def pdigit1 : P (List Char) := fun i =>
  let ds := i.takeWhile Char.isDigit
  if ds = [] then none else some (i.drop ds.length, ds)

/-- nom space characters are exactly `' '` and `'\t'`. -/
def isSpaceChar (c : Char) : Bool := c = ' ' || c = '\t'

def pspace0 : P Unit := fun i => some (i.dropWhile isSpaceChar, ())

def pspace1 : P Unit := fun i =>
  let ws := i.takeWhile isSpaceChar
  if ws = [] then none else some (i.drop ws.length, ())

def pone_of (s : List Char) : P Char := fun i =>
  match i with
  | [] => none
  | c :: rest => if s.contains c then some (rest, c) else none

/-- Loop of nom's `separated_list0/1` after the first element: repeatedly
parse separator-then-element; stop (without consuming) when either fails;
a round that consumes nothing is nom's `SeparatedList` hard error.  The
fuel starts at `input length + 1` and strictly dominates the remaining
length, so it is never exhausted before the input is. -/
def psepAux (sep : P γ) (item : P α) : Nat → Inp → List α → Option (Inp × List α)
  | 0, i, acc => some (i, acc)
  | fuel + 1, i, acc =>
    match pseq sep item i with
    | none => some (i, acc)
    | some (i2, (_, a)) =>
      if i2.length < i.length then psepAux sep item fuel i2 (acc ++ [a])
      else none

def psep_list0 (sep : P γ) (item : P α) : P (List α) := fun i =>
  match item i with
  | none => some (i, [])
  | some (i1, a) => psepAux sep item (i1.length + 1) i1 [a]

def psep_list1 (sep : P γ) (item : P α) : P (List α) := fun i =>
  match item i with
  | none => none
  | some (i1, a) => psepAux sep item (i1.length + 1) i1 [a]

/-! ## Grammar parsers (one Lean def per Rust fn in `parser.rs`) -/

def digitsToNat (ds : List Char) : Nat :=
  ds.foldl (fun acc c => 10 * acc + (c.toNat - 48)) 0

/-- `value`: `map_res(digit1, |s| s.parse::<usize>().map(Value))`.
`usize` is 64-bit; `parse` fails (→ `map_res` error) on overflow. -/
def value : P Nat := fun i =>
  match pdigit1 i with
  | none => none
  | some (i1, ds) =>
    let n := digitsToNat ds
    if n < 2 ^ 64 then some (i1, n) else none

def range : P RangeAst :=
  pmap (fun p => ⟨p.1, p.2.2⟩) (pseq value (pseq (ptag "..".toList) value))

def range_list_item : P RangeListItem :=
  palt (pmap RangeListItem.range range) (pmap RangeListItem.value value)

def sepComma : P Unit :=
  pmap (fun _ => ()) (pseq pspace0 (pseq (ptag ",".toList) pspace0))

def range_list : P RangeList := psep_list0 sepComma range_list_item

def charToOperand (c : Char) : Operand :=
  if c = 'n' then .N
  else if c = 'i' then .I
  else if c = 'v' then .V
  else if c = 'w' then .W
  else if c = 'f' then .F
  else .T  -- 't'; any other char is unreachable behind `one_of "nivwft"`

def operand : P Operand := pmap charToOperand (pone_of "nivwft".toList)

def mod_expression : P (Option Nat) :=
  popt (ppre (pseq pspace0 (pseq (palt (ptag "mod".toList) (ptag "%".toList)) pspace1)) value)

def expression : P Expression :=
  pmap (fun p => ⟨p.1, p.2⟩) (pseq operand mod_expression)

def relation_operator : P Operator :=
  palt (pmap (fun _ => Operator.EQ) (ptag "=".toList))
  (palt (pmap (fun _ => Operator.NotEQ) (ptag "!=".toList))
  (palt (pmap (fun p => if (p.2.2).isSome then Operator.IsNot else Operator.Is)
          (pseq (ptag "is".toList) (pseq pspace1 (popt (ptag "not".toList)))))
  (palt (pmap (fun _ => Operator.In) (ptag "in".toList))
  (palt (pmap (fun p => p.2.2)
          (pseq (ptag "not".toList) (pseq pspace1
            (palt (pmap (fun _ => Operator.NotIn) (ptag "in".toList))
                  (pmap (fun _ => Operator.NotWithin) (ptag "within".toList))))))
        (pmap (fun _ => Operator.Within) (ptag "within".toList))))))

def relation : P Relation :=
  pmap (fun t => ⟨t.1, t.2.2.1, t.2.2.2.2⟩)
    (pseq expression (pseq pspace0 (pseq relation_operator (pseq pspace0 range_list))))

def and_condition : P AndCondition :=
  psep_list1 (pseq pspace1 (pseq (ptag "and".toList) pspace1)) relation

def decimal_value : P DecimalValue :=
  pmap (fun p => ⟨p.1, p.2⟩) (pseq value (popt (ppre (ptag ".".toList) value)))

def sample_range : P SampleRange :=
  pmap (fun p => ⟨p.1, p.2⟩)
    (pseq decimal_value
      (popt (ppre (pseq pspace0 (pseq (ptag "~".toList) pspace0)) decimal_value)))

def sample_list : P SampleList :=
  pmap (fun p => ⟨p.1, p.2.isSome⟩)
    (pseq (psep_list1 sepComma sample_range)
      (popt (ppre sepComma (palt (ptag "...".toList) (ptag "…".toList)))))

def samples : P (Option Samples) :=
  pmap (fun p => if p.1.isSome || p.2.isSome then some ⟨p.1, p.2⟩ else none)
    (pseq (popt (ppre (pseq pspace1 (pseq (ptag "@integer".toList) pspace1)) sample_list))
          (popt (ppre (pseq pspace1 (pseq (ptag "@decimal".toList) pspace1)) sample_list)))

/-- Rust's `str::trim` removes Unicode `White_Space` characters from both
ends. -/
def isRustWhitespace (c : Char) : Bool :=
  (0x09 ≤ c.toNat && c.toNat ≤ 0x0D) || c.toNat = 0x20 || c.toNat = 0x85 ||
  c.toNat = 0xA0 || c.toNat = 0x1680 ||
  (0x2000 ≤ c.toNat && c.toNat ≤ 0x200A) || c.toNat = 0x2028 ||
  c.toNat = 0x2029 || c.toNat = 0x202F || c.toNat = 0x205F || c.toNat = 0x3000

def rustTrim (s : Inp) : Inp :=
  ((s.dropWhile isRustWhitespace).reverse.dropWhile isRustWhitespace).reverse

def parse_condition : P Condition := fun i =>
  if rustTrim i = [] then some ([], [])
  else if ['@'].isPrefixOf (rustTrim i) then some ([], [])
  else psep_list1 (pseq pspace1 (pseq (ptag "or".toList) pspace1)) and_condition i

def parse_rule : P Rule :=
  pmap (fun p => ⟨p.1, p.2⟩) (pseq parse_condition samples)

/-! ## Code generator (`gen_rs.rs`)

The generated Rust is token text; we embed the decision chain it emits as
a list of branches (`if pred { CAT }` pieces chained with `else`) over an
abstract operand type `α`, with predicates `α → Bool`, and give the chain
its evaluation semantics. -/

inductive PluralCategory where
  | ZERO | ONE | TWO | FEW | MANY | OTHER
  deriving Repr, DecidableEq

/-- One `else`-chained piece of the generated decision expression:
`cond p c` is `if p { c }`, `uncond c` is the bare block `{ c }`. -/
inductive Branch (α : Type) where
  | cond (p : α → Bool) (c : PluralCategory)
  | uncond (c : PluralCategory)

/-- `create_return`: for every category except OTHER it emits
`if #exp { CAT }`; for OTHER it emits the unconditional block
`{ PluralCategory::OTHER }`, discarding the expression. -/
def create_return {α : Type} (cat : PluralCategory) (exp : α → Bool) : Branch α :=
  match cat with
  | .ZERO => .cond exp .ZERO
  | .ONE => .cond exp .ONE
  | .TWO => .cond exp .TWO
  | .FEW => .cond exp .FEW
  | .MANY => .cond exp .MANY
  | .OTHER => .uncond .OTHER

/-- The chain part of `gen_mid`: fold the pairs into branches joined by
`else`, appending `else { PluralCategory::OTHER }`; an empty pair list
yields the bare `{ PluralCategory::OTHER }`. -/
def gen_mid {α : Type} (pluralrule_set : List (PluralCategory × (α → Bool))) : List (Branch α) :=
  match pluralrule_set with
  | [] => [.uncond .OTHER]
  | pair :: rest =>
    (create_return pair.1 pair.2 :: rest.map (fun q => create_return q.1 q.2))
      ++ [.uncond .OTHER]

/-- Evaluation of an `if/else if/…/else` chain: branches are tried in
order; a conditional branch fires when its predicate holds, an
unconditional block always fires. -/
def evalChain {α : Type} : List (Branch α) → α → PluralCategory
  | [], _ => .OTHER
  | .cond p c :: rest, x => if p x then c else evalChain rest x
  | .uncond c :: _, _ => c

/-- The decision function the spec describes: the category of the first
pair whose predicate is true, OTHER when none is. -/
def specFirstMatch {α : Type} : List (PluralCategory × (α → Bool)) → α → PluralCategory
  | [], _ => .OTHER
  | pair :: rest, x => if pair.2 x then pair.1 else specFirstMatch rest x

/-- Names of the two generated registry tables. -/
inductive PrTableName where
  | PRS_CARDINAL | PRS_ORDINAL
  deriving Repr, DecidableEq

/-- `create_pr_type`: matches the rule-type label; anything except
`"cardinal"`/`"ordinal"` panics (`none`). -/
def create_pr_type (pr_type : List Char) (streams : List α) :
    Option (PrTableName × List α) :=
  if pr_type = "cardinal".toList then some (.PRS_CARDINAL, streams)
  else if pr_type = "ordinal".toList then some (.PRS_ORDINAL, streams)
  else none

/-! ## Subtag encoders (`str_to_u64` / `str_to_u32`)

A Rust string's bytes become a `List Nat` (each entry a byte value).
`u64::from_le_bytes` of an 8-byte array is the little-endian value. -/

def u_from_le_bytes (bytes : List Nat) : Nat :=
  bytes.foldr (fun b acc => b + 256 * acc) 0

/-- `str_to_u64`: copies `s` into an 8-byte zero buffer and reads it
little-endian.  `bytes[..s_bytes.len()]` panics (`none`) when the string
is longer than 8 bytes — the slice range exceeds the buffer. -/
def str_to_u64 (s : List Nat) : Option Nat :=
  if s.length ≤ 8 then some (u_from_le_bytes (s ++ List.replicate (8 - s.length) 0))
  else none

/-- `str_to_u32`: the 4-byte variant, same panic behaviour past 4 bytes. -/
def str_to_u32 (s : List Nat) : Option Nat :=
  if s.length ≤ 4 then some (u_from_le_bytes (s ++ List.replicate (4 - s.length) 0))
  else none

/-- Byte-wise decoding of an encoded language subtag: the 8 little-endian
bytes of the integer, up to the first zero byte. -/
def decode_lang (n : Nat) : List Nat :=
  ((List.range 8).map (fun i => n / 256 ^ i % 256)).takeWhile (fun b => b ≠ 0)

/-! ## Predicate evaluation

Modelled from the spec: the AST-to-predicate lowering source is not among
the given files, so relations are evaluated per the specification's
operator table (§4.1) over an operand record (§3): `n` may be fractional,
the other operands are non-negative integers. -/

structure PluralOperands where
  n : ℚ
  i : Nat
  v : Nat
  w : Nat
  f : Nat
  t : Nat
  deriving DecidableEq

def operandValue (ops : PluralOperands) : Operand → ℚ
  | .N => ops.n
  | .I => ops.i
  | .V => ops.v
  | .W => ops.w
  | .F => ops.f
  | .T => ops.t

/-- Modelled from the spec: "the expression's tested value is
`operand_value mod modulus.value`" — the non-negative remainder. -/
def exprValue (ops : PluralOperands) (e : Expression) : ℚ :=
  let v := operandValue ops e.operand
  match e.modulus with
  | none => v
  | some m => v - m * ⌊v / (m : ℚ)⌋

/-- The expanded inclusive integer sequence of a range-list item. -/
def itemElems : RangeListItem → List ℚ
  | .value v => [(v : ℚ)]
  | .range r => (List.range (r.upper_val + 1 - r.lower_val)).map
      (fun k => ((r.lower_val + k : Nat) : ℚ))

/-- Bounds of a range-list item; a single value is a zero-width range. -/
def itemBounds : RangeListItem → ℚ × ℚ
  | .value v => ((v : ℚ), (v : ℚ))
  | .range r => ((r.lower_val : ℚ), (r.upper_val : ℚ))

def inElems (v : ℚ) (l : RangeList) : Bool :=
  l.any (fun item => (itemElems item).any (fun x => decide (x = v)))

def withinBounds (v : ℚ) (l : RangeList) : Bool :=
  l.any (fun item => decide ((itemBounds item).1 ≤ v) && decide (v ≤ (itemBounds item).2))

/-- Modelled from the spec: the operator truth table of §4.1. -/
def evalRelation (ops : PluralOperands) (rel : Relation) : Bool :=
  let v := exprValue ops rel.expression
  match rel.operator with
  | .EQ => inElems v rel.range_list
  | .Is => inElems v rel.range_list
  | .NotEQ => !inElems v rel.range_list
  | .IsNot => !inElems v rel.range_list
  | .In => (v.den == 1) && inElems v rel.range_list
  | .NotIn => !((v.den == 1) && inElems v rel.range_list)
  | .Within => withinBounds v rel.range_list
  | .NotWithin => !withinBounds v rel.range_list

def evalAnd (ops : PluralOperands) (ac : AndCondition) : Bool :=
  ac.all (evalRelation ops)

/-- Modelled from the spec: disjunction of the and-conditions; an empty
`Condition` is the constant `true`. -/
def evalCondition (ops : PluralOperands) (c : Condition) : Bool :=
  match c with
  | [] => true
  | _ => c.any (evalAnd ops)

/-- Operand vector for the number 0.5: n is the fraction one half. -/
def halfOps : PluralOperands := ⟨mkRat 1 2, 0, 1, 1, 5, 5⟩

/-! ## Shared lemmas -/

/-- Both trivial-input branches of `parse_condition` return the empty
condition with everything consumed. -/
theorem parse_condition_trivial (i : Inp)
    (h : rustTrim i = [] ∨ (rustTrim i).head? = some '@') :
    parse_condition i = some ([], ([] : Condition)) := by
  unfold parse_condition
  rcases h with h | h
  · rw [if_pos h]
  · rcases hl : rustTrim i with _ | ⟨c, t⟩
    · rw [if_pos rfl]
    · rw [hl] at h
      simp only [List.head?_cons, Option.some.injEq] at h
      subst h
      rw [if_neg (by simp [hl]), if_pos]
      simp [hl, List.isPrefixOf]

/-- The sample parser on exhausted input yields no samples. -/
theorem samples_nil : samples ([] : Inp) = some ([], none) := by decide

/-! ## Claim theorems -/

/-- C3 counterexample: the claim says inputs joining a word operator
directly to its operand, such as "nin 1" or "n in1", do not parse as a
relation; both in fact parse (the source puts `space0`, not `space1`,
around the relational operator). -/
theorem c3_cex :
    (relation ("nin 1".toList)).isSome = true ∧
    (relation ("n in1".toList)).isSome = true := by decide

/-- C3 amended: whitespace is insignificant around the symbolic operators
`=` and `!=` and around list separators, and also around the word
operators `in` and `within`; whitespace is required after `is`, after
`not`, after `mod` and after `%`, and on both sides of `and` (and `or`). -/
theorem c3_whitespace :
    relation ("n=1".toList) = some ([], ⟨⟨.N, none⟩, .EQ, [.value 1]⟩) ∧
    relation ("n  !=  1".toList) = some ([], ⟨⟨.N, none⟩, .NotEQ, [.value 1]⟩) ∧
    relation ("n = 1 ,2".toList) = some ([], ⟨⟨.N, none⟩, .EQ, [.value 1, .value 2]⟩) ∧
    relation ("nin 1".toList) = some ([], ⟨⟨.N, none⟩, .In, [.value 1]⟩) ∧
    relation ("n in1".toList) = some ([], ⟨⟨.N, none⟩, .In, [.value 1]⟩) ∧
    relation ("nwithin1".toList) = some ([], ⟨⟨.N, none⟩, .Within, [.value 1]⟩) ∧
    relation ("n is5".toList) = none ∧
    relation ("n notin 1".toList) = none ∧
    relation ("n mod10 = 0".toList) = none ∧
    relation ("n%10 = 0".toList) = none ∧
    and_condition ("n = 1 and n = 2".toList) =
      some ([], [⟨⟨.N, none⟩, .EQ, [.value 1]⟩, ⟨⟨.N, none⟩, .EQ, [.value 2]⟩]) ∧
    and_condition ("n = 1and n = 2".toList) =
      some ("and n = 2".toList, [⟨⟨.N, none⟩, .EQ, [.value 1]⟩]) := by
  refine ⟨?_, ?_, ?_, ?_, ?_, ?_, ?_, ?_, ?_, ?_, ?_, ?_⟩ <;> decide

/-- C4: an input that is empty after trimming whitespace, or whose
trimmed form begins with the sample marker, parses to the empty (always
true) condition with no error. -/
theorem c4_trivial_condition (i : Inp)
    (h : rustTrim i = [] ∨ (rustTrim i).head? = some '@') :
    parse_condition i = some ([], ([] : Condition)) :=
  parse_condition_trivial i h

/-- C4 witness at the whitespace-only input "  " and the sample-only
input "@integer 1, 2". -/
theorem c4_trivial_condition_witness :
    parse_condition ("  ".toList) = some ([], ([] : Condition)) ∧
    parse_condition ("@integer 1, 2".toList) = some ([], ([] : Condition)) :=
  ⟨c4_trivial_condition _ (Or.inl (by decide)),
   c4_trivial_condition _ (Or.inr (by decide))⟩

/-- C5 counterexample: the claim says an over-long subtag encodes to the
encoding of its width-long prefix instead of failing; the source slices
`bytes[..s_bytes.len()]` out of the fixed-width buffer, which panics
(modelled `none`) for the 9-byte string "languages" and the 5-byte
string "scrip". -/
theorem c5_cex :
    str_to_u64 [108, 97, 110, 103, 117, 97, 103, 101, 115] ≠
      some (u_from_le_bytes [108, 97, 110, 103, 117, 97, 103, 101]) ∧
    str_to_u64 [108, 97, 110, 103, 117, 97, 103, 101, 115] = none ∧
    str_to_u32 [115, 99, 114, 105, 112] = none := by decide

/-- C5 amended: a subtag string longer than the encoder width makes the
encoder fail (the copy into the fixed buffer panics); nothing is
truncated. -/
theorem c5_long_fails (s : List Nat) :
    (8 < s.length → str_to_u64 s = none) ∧
    (4 < s.length → str_to_u32 s = none) := by
  constructor
  · intro h
    unfold str_to_u64
    rw [if_neg (by omega)]
  · intro h
    unfold str_to_u32
    rw [if_neg (by omega)]

/-- C5 amended witness at a 9-byte and a 5-byte input. -/
theorem c5_long_fails_witness :
    str_to_u64 [1, 2, 3, 4, 5, 6, 7, 8, 9] = none ∧
    str_to_u32 [1, 2, 3, 4, 5] = none :=
  ⟨(c5_long_fails [1, 2, 3, 4, 5, 6, 7, 8, 9]).1 (by decide),
   (c5_long_fails [1, 2, 3, 4, 5]).2 (by decide)⟩

/-- C7 counterexample: the claim says "n =" does not parse as a relation;
it does — `range_list` is built with `separated_list0`, which accepts an
empty item list. -/
theorem c7_cex : (relation ("n =".toList)).isSome = true := by decide

/-- C7 amended: the parser accepts an empty range list (`separated_list0`
in the source, against the non-empty production of the grammar), so an
expression followed by a relational operator and no range-list item
parses as a relation whose range list is empty. -/
theorem c7_empty_range_list :
    range_list ([] : Inp) = some ([], []) ∧
    relation ("n =".toList) = some ([], ⟨⟨.N, none⟩, .EQ, []⟩) ∧
    relation ("n !=".toList) = some ([], ⟨⟨.N, none⟩, .NotEQ, []⟩) := by decide

/-- C9: the rule-type table builder succeeds exactly on the labels
"cardinal" and "ordinal" (producing the corresponding table) and panics
(modelled `none`) on every other label. -/
theorem c9_rule_type {α : Type} (s : List Char) (streams : List α)
    (h : s ≠ "cardinal".toList ∧ s ≠ "ordinal".toList) :
    create_pr_type s streams = none ∧
    create_pr_type "cardinal".toList streams = some (.PRS_CARDINAL, streams) ∧
    create_pr_type "ordinal".toList streams = some (.PRS_ORDINAL, streams) := by
  refine ⟨?_, ?_, ?_⟩
  · unfold create_pr_type
    rw [if_neg h.1, if_neg h.2]
  · unfold create_pr_type
    rw [if_pos rfl]
  · unfold create_pr_type
    rw [if_neg (by decide), if_pos rfl]

/-- C9 witness at the unknown label "plural". -/
theorem c9_rule_type_witness :
    create_pr_type "plural".toList ([] : List Unit) = none ∧
    create_pr_type "cardinal".toList ([] : List Unit) = some (.PRS_CARDINAL, []) ∧
    create_pr_type "ordinal".toList ([] : List Unit) = some (.PRS_ORDINAL, []) :=
  c9_rule_type "plural".toList [] ⟨by decide, by decide⟩

/-- C10: on input that is empty or sample-only after trimming,
`parse_rule` returns the empty condition and `samples = none` with the
whole input consumed — a sample clause in such input is discarded. -/
theorem c10_rule_trivial (i : Inp)
    (h : rustTrim i = [] ∨ (rustTrim i).head? = some '@') :
    parse_rule i = some ([], ⟨[], none⟩) := by
  unfold parse_rule pmap pseq
  rw [parse_condition_trivial i h]
  simp [samples_nil]

/-- C10 witness at the sample-only input "@integer 1, 2": its sample
clause is dropped, not parsed into the rule. -/
theorem c10_rule_trivial_witness :
    parse_rule ("@integer 1, 2".toList) = some ([], ⟨[], none⟩) :=
  c10_rule_trivial _ (Or.inr (by decide))

/-- A non-OTHER category always compiles to a guarded branch. -/
theorem create_return_ne_other {α : Type} (c : PluralCategory) (e : α → Bool)
    (h : c ≠ PluralCategory.OTHER) : create_return c e = .cond e c := by
  cases c <;> first | rfl | exact absurd rfl h

/-- The generated chain is the mapped branches plus the trailing
unconditional OTHER block, for empty and non-empty pair lists alike. -/
theorem gen_mid_eq {α : Type} (ps : List (PluralCategory × (α → Bool))) :
    gen_mid ps = ps.map (fun q => create_return q.1 q.2) ++ [.uncond .OTHER] := by
  cases ps <;> rfl

/-- Chain evaluation agrees with first-match search while no pair is
OTHER-labelled. -/
theorem evalChain_map {α : Type} (ps : List (PluralCategory × (α → Bool))) (x : α)
    (h : ∀ p ∈ ps, p.1 ≠ PluralCategory.OTHER) :
    evalChain (ps.map (fun q => create_return q.1 q.2) ++ [.uncond .OTHER]) x =
      specFirstMatch ps x := by
  induction ps with
  | nil => rfl
  | cons q rest ih =>
    rw [List.map_cons, List.cons_append,
      create_return_ne_other q.1 q.2 (h q (List.mem_cons_self q rest))]
    show (if q.2 x then q.1 else evalChain _ x) = specFirstMatch (q :: rest) x
    rw [ih (fun p hp => h p (List.mem_cons_of_mem q hp))]
    rfl

/-- C1 counterexample: the claim quantifies over every pair list, but an
explicit OTHER pair is compiled by `create_return` to an unconditional
block that ignores its predicate, so with pairs
[(OTHER, always-false), (ONE, always-true)] the chain returns OTHER while
the first satisfied pair is (ONE, always-true). -/
theorem c1_cex :
    evalChain (gen_mid [(PluralCategory.OTHER, fun _ : Unit => false),
                        (PluralCategory.ONE, fun _ : Unit => true)]) () ≠
      specFirstMatch [(PluralCategory.OTHER, fun _ : Unit => false),
                      (PluralCategory.ONE, fun _ : Unit => true)] () := by decide

/-- C1 amended: for every pair list in which no pair is labelled OTHER
(an OTHER pair compiles to an unconditional OTHER return that discards
its predicate), the generated chain returns the category of the first
pair whose predicate is true and OTHER when none is; the empty list
yields the constant-OTHER procedure. -/
theorem c1_first_match {α : Type} (ps : List (PluralCategory × (α → Bool))) (x : α)
    (h : ∀ p ∈ ps, p.1 ≠ PluralCategory.OTHER) :
    evalChain (gen_mid ps) x = specFirstMatch ps x := by
  rw [gen_mid_eq]
  exact evalChain_map ps x h

/-- C1 witness: a two-pair list where the second pair is the first to
match, plus the empty list, both decided through the generated chain. -/
theorem c1_first_match_witness :
    evalChain (gen_mid [(PluralCategory.ONE, fun _ : Unit => false),
                        (PluralCategory.FEW, fun _ : Unit => true)]) () =
      specFirstMatch [(PluralCategory.ONE, fun _ : Unit => false),
                      (PluralCategory.FEW, fun _ : Unit => true)] () :=
  c1_first_match _ () (by
    intro p hp
    simp only [List.mem_cons, List.not_mem_nil, or_false] at hp
    rcases hp with rfl | rfl <;> decide)

/-- Little-endian value of a byte list followed by zero padding. -/
theorem u_from_le_bytes_replicate_zero (k : Nat) :
    u_from_le_bytes (List.replicate k 0) = 0 := by
  induction k with
  | zero => rfl
  | succ k ih =>
    rw [List.replicate_succ]
    show 0 + 256 * u_from_le_bytes (List.replicate k 0) = 0
    rw [ih]

/-- Zero padding on the right does not change the little-endian value. -/
theorem u_from_le_bytes_append_zeros (l : List Nat) (k : Nat) :
    u_from_le_bytes (l ++ List.replicate k 0) = u_from_le_bytes l := by
  induction l with
  | nil => simpa using u_from_le_bytes_replicate_zero k
  | cons b l ih =>
    show b + 256 * u_from_le_bytes (l ++ List.replicate k 0) =
      b + 256 * u_from_le_bytes l
    rw [ih]

/-- The little-endian fold is the positional sum of the bytes. -/
theorem u_from_le_bytes_eq_sum (l : List Nat) :
    u_from_le_bytes l = ∑ i in Finset.range l.length, l.getD i 0 * 2 ^ (8 * i) := by
  induction l with
  | nil => simp [u_from_le_bytes]
  | cons b l ih =>
    have hstep : u_from_le_bytes (b :: l) = b + 256 * u_from_le_bytes l := rfl
    rw [hstep, ih, List.length_cons, Finset.sum_range_succ']
    have h : ∀ i ∈ Finset.range l.length,
        (b :: l).getD (i + 1) 0 * 2 ^ (8 * (i + 1)) =
          256 * (l.getD i 0 * 2 ^ (8 * i)) := by
      intro i _
      rw [List.getD_cons_succ, Nat.mul_succ, pow_add]
      ring
    rw [Finset.sum_congr rfl h, ← Finset.mul_sum]
    simp [Nat.add_comm]

/-- C6: for subtag byte strings within the encoder width, the encoded
integer is the little-endian packing Σ byte(s[i]) · 2^(8·i), zero-padded
on the right. -/
theorem c6_le_packing (s : List Nat) :
    (s.length ≤ 8 →
      str_to_u64 s = some (∑ i in Finset.range s.length, s.getD i 0 * 2 ^ (8 * i))) ∧
    (s.length ≤ 4 →
      str_to_u32 s = some (∑ i in Finset.range s.length, s.getD i 0 * 2 ^ (8 * i))) := by
  constructor
  · intro h
    unfold str_to_u64
    rw [if_pos h, u_from_le_bytes_append_zeros, u_from_le_bytes_eq_sum]
  · intro h
    unfold str_to_u32
    rw [if_pos h, u_from_le_bytes_append_zeros, u_from_le_bytes_eq_sum]

/-- C6 witness at the byte strings of "en" (u64) and "US" (u32). -/
theorem c6_le_packing_witness :
    str_to_u64 [101, 110] =
      some (∑ i in Finset.range ([101, 110] : List Nat).length,
        ([101, 110] : List Nat).getD i 0 * 2 ^ (8 * i)) ∧
    str_to_u32 [85, 83] =
      some (∑ i in Finset.range ([85, 83] : List Nat).length,
        ([85, 83] : List Nat).getD i 0 * 2 ^ (8 * i)) :=
  ⟨(c6_le_packing [101, 110]).1 (by decide), (c6_le_packing [85, 83]).2 (by decide)⟩

/-- Byte extraction from the little-endian value. -/
theorem u_from_le_bytes_getD (l : List Nat) (hb : ∀ b ∈ l, b < 256) :
    ∀ i, u_from_le_bytes l / 256 ^ i % 256 = l.getD i 0 := by
  induction l with
  | nil =>
    intro i
    show (0 : Nat) / 256 ^ i % 256 = 0
    simp
  | cons b l ih =>
    intro i
    have hb0 : b < 256 := hb b (List.mem_cons_self b l)
    have hstep : u_from_le_bytes (b :: l) = b + 256 * u_from_le_bytes l := rfl
    cases i with
    | zero =>
      rw [hstep, pow_zero, Nat.div_one, Nat.add_mul_mod_self_left,
        Nat.mod_eq_of_lt hb0, List.getD_cons_zero]
    | succ i =>
      rw [hstep, pow_succ', ← Nat.div_div_eq_div_mul,
        Nat.add_mul_div_left b _ (by norm_num : (0 : Nat) < 256),
        Nat.div_eq_of_lt hb0, Nat.zero_add, List.getD_cons_succ]
      exact ih (fun x hx => hb x (List.mem_cons_of_mem b hx)) i

/-- Reading a list back off its own indices. -/
theorem map_range_getD (l : List Nat) :
    (List.range l.length).map (fun i => l.getD i 0) = l := by
  induction l with
  | nil => rfl
  | cons b l ih =>
    rw [List.length_cons, List.range_succ_eq_map, List.map_cons, List.map_map]
    have h2 : (fun i => (b :: l).getD i 0) ∘ Nat.succ = fun i => l.getD i 0 :=
      funext (fun i => rfl)
    rw [h2, ih]
    rfl

/-- Taking the nonzero prefix of a list of nonzero bytes plus padding
recovers the list. -/
theorem takeWhile_append_zeros (l : List Nat) (k : Nat)
    (h : ∀ b ∈ l, b ≠ 0) :
    (l ++ List.replicate k 0).takeWhile (fun b => b ≠ 0) = l := by
  induction l with
  | nil =>
    cases k with
    | zero => rfl
    | succ k =>
      rw [List.nil_append, List.replicate_succ, List.takeWhile_cons]
      simp
  | cons b l ih =>
    have hb : b ≠ 0 := h b (List.mem_cons_self b l)
    rw [List.cons_append, List.takeWhile_cons, if_pos (by simp [hb]),
      ih (fun x hx => h x (List.mem_cons_of_mem b hx))]

/-- C8: encoding a language subtag of at most 8 nonzero ASCII bytes and
decoding the integer byte-wise (up to the first zero byte) returns the
original byte string. -/
theorem c8_roundtrip (s : List Nat) (h8 : s.length ≤ 8)
    (hb : ∀ b ∈ s, 1 ≤ b ∧ b ≤ 127) :
    (str_to_u64 s).map decode_lang = some s := by
  have hlt : ∀ b ∈ s ++ List.replicate (8 - s.length) 0, b < 256 := by
    intro b hbmem
    rcases List.mem_append.1 hbmem with hmem | hmem
    · have := (hb b hmem).2; omega
    · have := List.eq_of_mem_replicate hmem; omega
  have hlen : (s ++ List.replicate (8 - s.length) 0).length = 8 := by
    simp only [List.length_append, List.length_replicate]
    omega
  unfold str_to_u64
  rw [if_pos h8, Option.map_some']
  unfold decode_lang
  set t := s ++ List.replicate (8 - s.length) 0 with ht
  have h1 : ∀ i, u_from_le_bytes t / 256 ^ i % 256 = t.getD i 0 :=
    u_from_le_bytes_getD t hlt
  have hcongr : (List.range 8).map (fun i => u_from_le_bytes t / 256 ^ i % 256)
      = (List.range 8).map (fun i => t.getD i 0) :=
    List.map_congr_left (fun i _ => h1 i)
  have hmap : (List.range 8).map (fun i => u_from_le_bytes t / 256 ^ i % 256) = t := by
    rw [hcongr, ← hlen]
    exact map_range_getD t
  rw [hmap, ht, takeWhile_append_zeros s _ (fun b hbm => by have := (hb b hbm).1; omega)]

/-- C8 witness at the byte string of "en". -/
theorem c8_roundtrip_witness :
    (str_to_u64 [101, 110]).map decode_lang = some [101, 110] :=
  c8_roundtrip [101, 110] (by decide) (by decide)

/-- Membership in the expanded integer sequence of a single range. -/
theorem inElems_range (v : ℚ) (a b : Nat) :
    inElems v [RangeListItem.range ⟨a, b⟩] = true ↔
      ∃ k : Nat, v = (k : ℚ) ∧ a ≤ k ∧ k ≤ b := by
  simp only [inElems, itemElems, List.any_cons, List.any_nil, Bool.or_false,
    List.any_eq_true, List.mem_map, List.mem_range, decide_eq_true_eq]
  constructor
  · rintro ⟨x, ⟨j, hj, rfl⟩, hx⟩
    exact ⟨a + j, hx.symm, by omega, by omega⟩
  · rintro ⟨k, hk, hak, hkb⟩
    refine ⟨(k : ℚ), ⟨k - a, by omega, ?_⟩, hk.symm⟩
    congr 1
    omega

/-- Bounds membership for a single range. -/
theorem withinBounds_range (v : ℚ) (a b : Nat) :
    withinBounds v [RangeListItem.range ⟨a, b⟩] = true ↔
      ((a : ℚ) ≤ v ∧ v ≤ (b : ℚ)) := by
  simp [withinBounds, itemBounds]

/-- C2: over a range a..b, the In predicate (like EQ) holds exactly on
exact integers of {a, …, b}, while Within holds for any value between
the bounds; in particular the parsed rule "n in 0..1" is false at
n = 0.5 and "n within 0..1" is true there. -/
theorem c2_in_within :
    (∀ (a b : Nat) (ops : PluralOperands),
      (evalRelation ops ⟨⟨.N, none⟩, .In, [.range ⟨a, b⟩]⟩ = true ↔
        ∃ k : Nat, ops.n = (k : ℚ) ∧ a ≤ k ∧ k ≤ b) ∧
      (evalRelation ops ⟨⟨.N, none⟩, .EQ, [.range ⟨a, b⟩]⟩ = true ↔
        ∃ k : Nat, ops.n = (k : ℚ) ∧ a ≤ k ∧ k ≤ b) ∧
      (evalRelation ops ⟨⟨.N, none⟩, .Within, [.range ⟨a, b⟩]⟩ = true ↔
        ((a : ℚ) ≤ ops.n ∧ ops.n ≤ (b : ℚ)))) ∧
    (parse_condition ("n in 0..1".toList)).map (fun p => evalCondition halfOps p.2) =
      some false ∧
    (parse_condition ("n within 0..1".toList)).map (fun p => evalCondition halfOps p.2) =
      some true := by
  refine ⟨?_, by decide, by decide⟩
  intro a b ops
  have hv : exprValue ops ⟨.N, none⟩ = ops.n := rfl
  refine ⟨?_, ?_, ?_⟩
  · show ((exprValue ops ⟨.N, none⟩).den == 1 &&
      inElems (exprValue ops ⟨.N, none⟩) [.range ⟨a, b⟩]) = true ↔ _
    rw [hv, Bool.and_eq_true, beq_iff_eq, inElems_range]
    constructor
    · rintro ⟨_, k, hk, hak, hkb⟩
      exact ⟨k, hk, hak, hkb⟩
    · rintro ⟨k, hk, hak, hkb⟩
      exact ⟨by rw [hk]; exact Rat.den_natCast k, k, hk, hak, hkb⟩
  · show inElems (exprValue ops ⟨.N, none⟩) [.range ⟨a, b⟩] = true ↔ _
    rw [hv, inElems_range]
  · show withinBounds (exprValue ops ⟨.N, none⟩) [.range ⟨a, b⟩] = true ↔ _
    rw [hv, withinBounds_range]

/-- C2 witness: the Within clause instantiated at the range 0..1 and the
operand vector for 0.5. -/
theorem c2_in_within_witness :
    evalRelation halfOps ⟨⟨.N, none⟩, .Within, [.range ⟨0, 1⟩]⟩ = true :=
  (c2_in_within.1 0 1 halfOps).2.2.mpr ⟨by decide, by decide⟩

end PluralRules
